import Mathlib

set_option maxRecDepth 100000
set_option maxHeartbeats 1000000

/-!
# Path-generation trace of Pyslvs-UI (`DimensionalSynthesis.__get_path`)

Shallow embedding of the one substantive algorithm of the repository: the
per-joint path trace in `src/core/synthesis/dimensional_synthesis/__init__.py`
(`__get_path`, lines 530-599).  The Python routine parses the stored
`Expression` string into tagged steps, counts the `'PLAP'` steps (the
independent drivers), and then, for each sweep interval in `(3, -3)`, walks a
driver pointer `dp` over the drivers, calling the external position solver
`expr_solving(exprs, mapping, vpoints, angles)` once per loop iteration and
appending one coordinate (or one `(nan, nan)` sentinel) per joint per call.

The solver is external to the repository, so it is a parameter here: a function
from the current driver angles and the current per-joint positions (the mutable
`vpoints` objects, whose positions the loop updates through `.move`) to either
a solved frame (`some`) or a `ValueError` (`none`).

All angle arithmetic in the source uses float values that stay exact integers
(steps of `±3`, `% 360`), so angles are embedded as `ℤ`; Python's `%` on a
positive modulus agrees with `Int.emod`.  Coordinates are an opaque type `α`:
the trace only moves them around, never computes with them.
-/

/-- Joint kind tag, mirroring `VJoint` of the `pyslvs` library as used by the
code: `P` (prismatic) and `RP` (revolute-slider) are the sliding kinds tested
by `vpoints[i].type in {VJoint.P, VJoint.RP}`; `R` is the plain revolute
joint (the `else` branch). -/
inductive VJoint : Type
  | R : VJoint
  | P : VJoint
  | RP : VJoint
deriving DecidableEq, Repr

/-- A joint's current position, as stored on a `vpoints[i]` object and as
returned per joint by `expr_solving`: either a plain coordinate, or — for
sliding joints — the `(slot, pin)` pair `(solved_result[i][0],
solved_result[i][1])`. -/
inductive JPos (α : Type) : Type
  | simple (c : α) : JPos α
  | pinSlot (slot pin : α) : JPos α
deriving DecidableEq, Repr

instance (α : Type) [Inhabited α] : Inhabited (JPos α) := ⟨JPos.simple default⟩

/-- One entry of a joint's path: a coordinate, or the `(nan, nan)` sentinel
pair appended on solver failure. -/
inductive PEntry (α : Type) : Type
  | coord (c : α) : PEntry α
  | nanPair : PEntry α
deriving DecidableEq, Repr

/-- The external position solver `expr_solving(exprs, mapping, vpoints,
angles)` with the run-constant arguments `exprs` and `mapping` fixed: it reads
the current driver angles and the current joint positions (carried on the
`vpoints` objects) and returns a solved frame, or `none` for the `ValueError`
raised on an infeasible configuration. -/
def Solver (α : Type) : Type :=
  List ℤ → List (JPos α) → Option (List (JPos α))

/-- One parsed step of the `Expression` string: the loop
`for expr in result['Expression'].split(';')` builds, per step, the tag
`func = str_before(expr, '[')`, the parameter list
`str_between(expr, '[', ']').split(',')` and the target
`str_between(expr, '(', ')')`. -/
structure ExprStep : Type where
  func : String
  params : List String
  target : String
deriving DecidableEq, Repr

/-- Python's `str.split` with a one-character separator, on the character
list of the string: `"".split(c) == ['']`, and every occurrence of the
separator opens a new chunk. -/
def splitOnChar (c : Char) : List Char → List (List Char)
  | [] => [[]]
  | x :: xs =>
    match splitOnChar c xs with
    | [] => [[]]
    | h :: t => if x = c then [] :: h :: t else (x :: h) :: t

/-- Modelled from the spec: `str_before` is imported from `core.io`, which is
not part of this source set; per its use on Expression steps it yields the part
of the string before the first occurrence of the (one-character) delimiter —
the step tag, e.g. `"PLAP"` out of `"PLAP[p0,L0,a0](p1)"`. -/
def strBefore (s : List Char) (c : Char) : List Char :=
  (splitOnChar c s).headD []

/-- Modelled from the spec: `str_between` is imported from `core.io`, which is
not part of this source set; per its use on Expression steps it yields the part
of the string between the first occurrence of `first` and the following
occurrence of `last`. -/
def strBetween (s : List Char) (first last : Char) : List Char :=
  (splitOnChar last ((splitOnChar first s).getD 1 [])).headD []

/-- Parse one Expression step, as in the body of the parsing loop of
`__get_path`: `func = str_before(expr, '[')`,
`params = str_between(expr, '[', ']').split(',')`,
`target = str_between(expr, '(', ')')` (the Python code stores the tuple
`(func, *params, target)`; the fields are kept named here). -/
def parseExprStep (expr : List Char) : ExprStep :=
  { func := String.mk (strBefore expr '['),
    params := (splitOnChar ',' (strBetween expr '[' ']')).map String.mk,
    target := String.mk (strBetween expr '(' ')') }

/-- Parse the whole `Expression` string:
`for expr in result['Expression'].split(';')`. -/
def parseExpression (s : String) : List ExprStep :=
  (splitOnChar ';' s.data).map parseExprStep

/-- The driver count `i_count = sum(1 for e in exprs if e[0] == 'PLAP')`: the
number of independent drivers swept by the trace. -/
def iCountOf (exprs : List ExprStep) : ℕ :=
  (exprs.filter (fun e => e.func == "PLAP")).length

/-- The working state of the sweep loop of `__get_path`.
`path` is the per-joint accumulator `path = [[] for _ in range(vpoint_count)]`;
`vpos` is the current position of each `vpoints[i]` (mutated via `.move`);
`angles` is the per-driver angle list; `anglesParams` is the cumulative
progress list `angles_params` (note: the source initialises it once, before
the direction loop); `dp` is the driver pointer.  `calls` is ghost
instrumentation counting the `expr_solving` invocations made so far (one per
loop iteration); it affects nothing else. -/
structure TraceState (α : Type) : Type where
  path : List (List (PEntry α))
  vpos : List (JPos α)
  angles : List ℤ
  anglesParams : List ℤ
  dp : ℕ
  calls : ℕ
deriving DecidableEq, Repr

/-- The per-joint success update: for a sliding joint (`P` or `RP`) the code
appends the pin coordinate `solved_result[i][1]` and moves the joint to the
solved `(slot, pin)` pair; for any other joint it appends and moves to the
plain solved coordinate.  The two cross cases (a plain result on a sliding
joint or a pair on a plain joint) cannot arise from a shape-conforming solver
— in Python they would fail inside `.move` or append a non-coordinate — and
here simply pass the value through. -/
def jointUpdate (ty : VJoint) (s : JPos α) : PEntry α × JPos α :=
  if ty = VJoint.P ∨ ty = VJoint.RP then
    match s with
    | JPos.pinSlot slot pin => (PEntry.coord pin, JPos.pinSlot slot pin)
    | JPos.simple c => (PEntry.coord c, JPos.simple c)
  else
    match s with
    | JPos.simple c => (PEntry.coord c, JPos.simple c)
    | JPos.pinSlot slot pin => (PEntry.coord pin, JPos.pinSlot slot pin)

/-- Append `f i` to `path[i]` for every joint index `i` in order, starting at
index `k`: the positional form of the success-branch update loop
`for i in range(vpoint_count)` (by construction `len(path) = vpoint_count`). -/
def appendAt (f : ℕ → PEntry α) : ℕ → List (List (PEntry α)) → List (List (PEntry α))
  | _, [] => []
  | k, l :: ls => (l ++ [f k]) :: appendAt f (k + 1) ls

/-- Move `vpoints[i]` to `g i` for every joint index `i` in order, starting at
index `k`: the positional form of the success-branch position update. -/
def moveAt (g : ℕ → JPos α) : ℕ → List (JPos α) → List (JPos α)
  | _, [] => []
  | k, _ :: ps => g k :: moveAt g (k + 1) ps

/-- One iteration of `while dp < i_count` in `__get_path`: a single
`expr_solving` call and either the `except ValueError` branch (append the
`(nan, nan)` sentinel to every joint's path, back the active driver off by one
interval, advance `dp`) or the `else` branch (append each joint's solved
coordinate and move it, then `angles[dp] += interval; angles[dp] %= 360;
angles_params[dp] += abs(interval)`, and on overshoot `angles_params[dp] > 360`
roll the angle back by one interval and advance `dp`). -/
def sweepStep [Inhabited α] (types : List VJoint) (solver : Solver α)
    (interval : ℤ) (st : TraceState α) : TraceState α :=
  match solver st.angles st.vpos with
  | none =>
      { st with
        path := st.path.map (fun l => l ++ [PEntry.nanPair]),
        angles := st.angles.set st.dp (st.angles.getD st.dp 0 - interval),
        dp := st.dp + 1,
        calls := st.calls + 1 }
  | some r =>
      let upd : ℕ → PEntry α × JPos α := fun i =>
        jointUpdate (types.getD i VJoint.R) (r.getD i default)
      let path' := appendAt (fun i => (upd i).1) 0 st.path
      let vpos' := moveAt (fun i => (upd i).2) 0 st.vpos
      let a1 := st.angles.set st.dp ((st.angles.getD st.dp 0 + interval) % 360)
      let p1 := st.anglesParams.set st.dp (st.anglesParams.getD st.dp 0 + |interval|)
      if p1.getD st.dp 0 > 360 then
        { path := path', vpos := vpos',
          angles := a1.set st.dp (a1.getD st.dp 0 - interval),
          anglesParams := p1, dp := st.dp + 1, calls := st.calls + 1 }
      else
        { path := path', vpos := vpos',
          angles := a1, anglesParams := p1, dp := st.dp, calls := st.calls + 1 }

/-- The `while dp < i_count` loop, with explicit fuel.  With the intervals the
source uses (`±3`) every iteration either advances `dp` or adds `3` to
`angles_params[dp]`, so a driver's phase takes at most `121` iterations and
`121 * i_count` fuel always outlasts the loop (see `sweepFuel`). -/
def sweepLoop [Inhabited α] (types : List VJoint) (solver : Solver α)
    (interval : ℤ) (iCount : ℕ) : ℕ → TraceState α → TraceState α
  | 0, st => st
  | Nat.succ fuel, st =>
      if st.dp < iCount then
        sweepLoop types solver interval iCount fuel (sweepStep types solver interval st)
      else st

/-- Fuel that outlasts the `while` loop for the intervals `±3` the source
uses: at most `121` iterations per driver. -/
def sweepFuel (iCount : ℕ) : ℕ := 121 * iCount

/-- The state at the start of the trace: `path = [[] for _ in
range(vpoint_count)]`, the initial `vpoints` positions, `angles = [0.] *
i_count`, `angles_params = [0.] * i_count` (initialised once, before the
direction loop), `dp` unset yet (the direction loop sets it to `0`). -/
def initState (types : List VJoint) (initPos : List (JPos α)) (iCount : ℕ) :
    TraceState α :=
  { path := List.replicate types.length [],
    vpos := initPos,
    angles := List.replicate iCount 0,
    anglesParams := List.replicate iCount 0,
    dp := 0,
    calls := 0 }

/-- The whole trace of `__get_path` after the setup: `for interval in (3, -3)`
runs the sweep loop twice; each direction resets `dp = 0` and
`angles = [0.] * i_count`, while `path`, the `vpoints` positions and —
notably — `angles_params` carry over from the forward direction into the
backward one. -/
def getPathState [Inhabited α] (exprs : List ExprStep) (types : List VJoint)
    (solver : Solver α) (initPos : List (JPos α)) : TraceState α :=
  let iCount := iCountOf exprs
  let st0 := initState types initPos iCount
  let st1 := sweepLoop types solver 3 iCount (sweepFuel iCount) st0
  let st2 := sweepLoop types solver (-3) iCount (sweepFuel iCount)
      { st1 with angles := List.replicate iCount 0, dp := 0 }
  st2

/-- The value `__get_path` returns: the per-joint path accumulator. -/
def getPath [Inhabited α] (exprs : List ExprStep) (types : List VJoint)
    (solver : Solver α) (initPos : List (JPos α)) : List (List (PEntry α)) :=
  (getPathState exprs types solver initPos).path

/-! ## Concrete scenario instances

The trace bookkeeping never inspects coordinates, so the end-to-end scenarios
instantiate the coordinate type with `Unit` (one revolute joint) or with `ℕ`
(one slider joint, where the slot/pin distinction matters). -/

/-- A position solver that succeeds on every call. -/
def okSolverU : Solver Unit := fun _ _ => some [JPos.simple ()]

/-- A solver that is pointwise equal to `okSolverU` but syntactically
different. -/
def okSolverV : Solver Unit := fun a _ =>
  if a = a then some [JPos.simple ()] else none

/-- A position solver that raises `ValueError` on every call. -/
def failSolverU : Solver Unit := fun _ _ => none

/-- A single plain revolute joint. -/
def typesR1 : List VJoint := [VJoint.R]

/-- Its initial position. -/
def posR1 : List (JPos Unit) := [JPos.simple ()]

/-- A stored `Expression` string with two `PLAP` steps: a two-driver
mechanism. -/
def exprStr2 : String := "PLAP[P0,L0,a0](P2);PLAP[P1,L1,a1](P3)"

/-- A stored `Expression` string with a single `PLAP` step: one driver. -/
def exprStr1 : String := "PLAP[P0,L0,a0](P2)"

/-- The state at the start of the forward sweep of the two-driver trace. -/
def stInit2 : TraceState Unit := initState typesR1 posR1 2

/-- The state at the start of the forward sweep of the one-driver trace. -/
def stInit1 : TraceState Unit := initState typesR1 posR1 1

/-- The state at the end of the forward sweep of the two-driver all-success
trace. -/
def stFwd2 : TraceState Unit :=
  sweepLoop typesR1 okSolverU 3 2 (sweepFuel 2) stInit2

/-- The state at the start of the backward sweep of the two-driver all-success
trace: `dp` and `angles` are reset, `path`, positions and `angles_params`
carry over. -/
def stBwdInit2 : TraceState Unit :=
  { stFwd2 with angles := List.replicate 2 0, dp := 0 }

/-- A single revolute-slider joint. -/
def typesRP1 : List VJoint := [VJoint.RP]

/-- A solver for the slider scenario: it reports slot coordinate `5` and pin
coordinate `7`. -/
def slideSolver : Solver ℕ := fun _ _ => some [JPos.pinSlot 5 7]

/-- The slider scenario's initial state (one driver). -/
def stSlide : TraceState ℕ := initState typesRP1 [JPos.pinSlot 0 1] 1

/-! ## General lemmas about the step and the loop -/

theorem appendAt_length (f : ℕ → PEntry α) (k : ℕ) (ls : List (List (PEntry α))) :
    (appendAt f k ls).length = ls.length := by
  induction ls generalizing k with
  | nil => rfl
  | cons l ls ih => simp [appendAt, ih]

theorem moveAt_length (g : ℕ → JPos α) (k : ℕ) (ps : List (JPos α)) :
    (moveAt g k ps).length = ps.length := by
  induction ps generalizing k with
  | nil => rfl
  | cons p ps ih => simp [moveAt, ih]

theorem appendAt_getElem? (f : ℕ → PEntry α) (k j : ℕ) (ls : List (List (PEntry α))) :
    (appendAt f k ls)[j]? = (ls[j]?).map (fun l => l ++ [f (k + j)]) := by
  induction ls generalizing k j with
  | nil => simp [appendAt]
  | cons l ls ih =>
    cases j with
    | zero => simp [appendAt]
    | succ j =>
      have h : k + 1 + j = k + (j + 1) := by omega
      simp only [appendAt, List.getElem?_cons_succ, ih, h]

theorem moveAt_getElem? (g : ℕ → JPos α) (k j : ℕ) (ps : List (JPos α)) :
    (moveAt g k ps)[j]? = (ps[j]?).map (fun _ => g (k + j)) := by
  induction ps generalizing k j with
  | nil => simp [moveAt]
  | cons p ps ih =>
    cases j with
    | zero => simp [moveAt]
    | succ j =>
      have h : k + 1 + j = k + (j + 1) := by omega
      simp only [moveAt, List.getElem?_cons_succ, ih, h]

theorem appendAt_forall_length (f : ℕ → PEntry α) (k n : ℕ)
    (ls : List (List (PEntry α))) (h : ∀ l ∈ ls, l.length = n) :
    ∀ l' ∈ appendAt f k ls, l'.length = n + 1 := by
  induction ls generalizing k with
  | nil => intro l' hl'; simp [appendAt] at hl'
  | cons l ls ih =>
    intro l' hl'
    simp only [appendAt, List.mem_cons] at hl'
    rcases hl' with rfl | hl'
    · simp [h l (by simp)]
    · exact ih (k + 1) (fun x hx => h x (by simp [hx])) l' hl'

theorem getD_set_self (l : List ℤ) (n : ℕ) (a : ℤ) (h : n < l.length) :
    (l.set n a).getD n 0 = a := by
  rw [List.getD_eq_getElem?_getD, List.getElem?_set_eq_of_lt _ h]
  rfl

theorem getD_set_ne (l : List ℤ) (m n : ℕ) (a : ℤ) (h : m ≠ n) :
    (l.set m a).getD n 0 = l.getD n 0 := by
  rw [List.getD_eq_getElem?_getD, List.getElem?_set_ne h, ← List.getD_eq_getElem?_getD]

theorem sweepStep_calls [Inhabited α] (types : List VJoint) (solver : Solver α)
    (interval : ℤ) (st : TraceState α) :
    (sweepStep types solver interval st).calls = st.calls + 1 := by
  cases h : solver st.angles st.vpos with
  | none => simp [sweepStep, h]
  | some r =>
    simp only [sweepStep, h]
    split <;> rfl

theorem sweepStep_path_length [Inhabited α] (types : List VJoint) (solver : Solver α)
    (interval : ℤ) (st : TraceState α) :
    (sweepStep types solver interval st).path.length = st.path.length := by
  cases h : solver st.angles st.vpos with
  | none => simp [sweepStep, h]
  | some r =>
    simp only [sweepStep, h]
    split <;> simp [appendAt_length]

theorem sweepStep_vpos_length [Inhabited α] (types : List VJoint) (solver : Solver α)
    (interval : ℤ) (st : TraceState α) :
    (sweepStep types solver interval st).vpos.length = st.vpos.length := by
  cases h : solver st.angles st.vpos with
  | none => simp [sweepStep, h]
  | some r =>
    simp only [sweepStep, h]
    split <;> simp [moveAt_length]

theorem sweepStep_dp_mono [Inhabited α] (types : List VJoint) (solver : Solver α)
    (interval : ℤ) (st : TraceState α) :
    st.dp ≤ (sweepStep types solver interval st).dp := by
  cases h : solver st.angles st.vpos with
  | none => simp [sweepStep, h]
  | some r =>
    simp only [sweepStep, h]
    split <;> simp

theorem sweepStep_dp_le [Inhabited α] (types : List VJoint) (solver : Solver α)
    (interval : ℤ) (st : TraceState α) :
    (sweepStep types solver interval st).dp ≤ st.dp + 1 := by
  cases h : solver st.angles st.vpos with
  | none => simp [sweepStep, h]
  | some r =>
    simp only [sweepStep, h]
    split <;> simp

theorem sweepStep_angles_ne [Inhabited α] (types : List VJoint) (solver : Solver α)
    (interval : ℤ) (st : TraceState α) (j : ℕ) (hj : j ≠ st.dp) :
    (sweepStep types solver interval st).angles[j]? = st.angles[j]? := by
  cases h : solver st.angles st.vpos with
  | none => simp [sweepStep, h, List.getElem?_set_ne (Ne.symm hj)]
  | some r =>
    simp only [sweepStep, h]
    split <;> simp [List.getElem?_set_ne (Ne.symm hj)]

theorem sweepStep_path_forall_length [Inhabited α] (types : List VJoint) (solver : Solver α)
    (interval : ℤ) (st : TraceState α) (h : ∀ l ∈ st.path, l.length = st.calls) :
    ∀ l ∈ (sweepStep types solver interval st).path, l.length = st.calls + 1 := by
  cases hs : solver st.angles st.vpos with
  | none =>
    intro l hl
    simp only [sweepStep, hs, List.mem_map] at hl
    obtain ⟨x, hx, rfl⟩ := hl
    simp [h x hx]
  | some r =>
    intro l hl
    simp only [sweepStep, hs] at hl
    have : l ∈ appendAt (fun i =>
        (jointUpdate (types.getD i VJoint.R) (r.getD i default)).1) 0 st.path := by
      revert hl
      split <;> intro hl <;> exact hl
    exact appendAt_forall_length _ 0 st.calls st.path h l this

theorem sweepLoop_path_forall_length [Inhabited α] (types : List VJoint) (solver : Solver α)
    (interval : ℤ) (iCount fuel : ℕ) (st : TraceState α)
    (h : ∀ l ∈ st.path, l.length = st.calls) :
    ∀ l ∈ (sweepLoop types solver interval iCount fuel st).path,
      l.length = (sweepLoop types solver interval iCount fuel st).calls := by
  induction fuel generalizing st with
  | zero => exact h
  | succ fuel ih =>
    simp only [sweepLoop]
    by_cases hdp : st.dp < iCount
    · rw [if_pos hdp]
      refine ih _ ?_
      intro l hl
      rw [sweepStep_calls]
      exact sweepStep_path_forall_length types solver interval st h l hl
    · rw [if_neg hdp]; exact h

theorem sweepLoop_path_length [Inhabited α] (types : List VJoint) (solver : Solver α)
    (interval : ℤ) (iCount fuel : ℕ) (st : TraceState α) :
    (sweepLoop types solver interval iCount fuel st).path.length = st.path.length := by
  induction fuel generalizing st with
  | zero => rfl
  | succ fuel ih =>
    simp only [sweepLoop]
    by_cases hdp : st.dp < iCount
    · rw [if_pos hdp, ih, sweepStep_path_length]
    · rw [if_neg hdp]

theorem sweepLoop_dp_mono [Inhabited α] (types : List VJoint) (solver : Solver α)
    (interval : ℤ) (iCount fuel : ℕ) (st : TraceState α) :
    st.dp ≤ (sweepLoop types solver interval iCount fuel st).dp := by
  induction fuel generalizing st with
  | zero => exact Nat.le_refl _
  | succ fuel ih =>
    simp only [sweepLoop]
    by_cases hdp : st.dp < iCount
    · rw [if_pos hdp]
      exact Nat.le_trans (sweepStep_dp_mono types solver interval st) (ih _)
    · rw [if_neg hdp]

theorem sweepLoop_dp_le [Inhabited α] (types : List VJoint) (solver : Solver α)
    (interval : ℤ) (iCount fuel : ℕ) (st : TraceState α) (h : st.dp ≤ iCount) :
    (sweepLoop types solver interval iCount fuel st).dp ≤ iCount := by
  induction fuel generalizing st with
  | zero => exact h
  | succ fuel ih =>
    simp only [sweepLoop]
    by_cases hdp : st.dp < iCount
    · rw [if_pos hdp]
      exact ih _ (Nat.le_trans (sweepStep_dp_le types solver interval st) hdp)
    · rw [if_neg hdp]; exact h

theorem sweepLoop_angles_lt [Inhabited α] (types : List VJoint) (solver : Solver α)
    (interval : ℤ) (iCount fuel : ℕ) (st : TraceState α) (j : ℕ) (hj : j < st.dp) :
    (sweepLoop types solver interval iCount fuel st).angles[j]? = st.angles[j]? := by
  induction fuel generalizing st with
  | zero => rfl
  | succ fuel ih =>
    simp only [sweepLoop]
    by_cases hdp : st.dp < iCount
    · rw [if_pos hdp]
      have h1 : j < (sweepStep types solver interval st).dp :=
        Nat.lt_of_lt_of_le hj (sweepStep_dp_mono types solver interval st)
      rw [ih _ h1, sweepStep_angles_ne types solver interval st j (Nat.ne_of_lt hj)]
    · rw [if_neg hdp]

theorem sweepLoop_zero_above [Inhabited α] (types : List VJoint) (solver : Solver α)
    (interval : ℤ) (iCount fuel : ℕ) (st : TraceState α)
    (h : ∀ j, st.dp < j → st.angles.getD j 0 = 0) :
    ∀ j, (sweepLoop types solver interval iCount fuel st).dp < j →
      (sweepLoop types solver interval iCount fuel st).angles.getD j 0 = 0 := by
  induction fuel generalizing st with
  | zero => exact h
  | succ fuel ih =>
    simp only [sweepLoop]
    by_cases hdp : st.dp < iCount
    · rw [if_pos hdp]
      refine ih _ ?_
      intro j hj
      have h1 : st.dp < j :=
        Nat.lt_of_le_of_lt (sweepStep_dp_mono types solver interval st) hj
      rw [List.getD_eq_getElem?_getD,
        sweepStep_angles_ne types solver interval st j (Ne.symm (Nat.ne_of_lt h1)),
        ← List.getD_eq_getElem?_getD]
      exact h j h1
    · rw [if_neg hdp]; exact h

/-- On a successful solver call the per-joint path and position updates do not
depend on whether the overshoot rollback fires: both `if` branches carry the
same `path` and `vpos` fields. -/
theorem sweepStep_success_path_vpos [Inhabited α] (types : List VJoint) (solver : Solver α)
    (interval : ℤ) (st : TraceState α) (r : List (JPos α))
    (hs : solver st.angles st.vpos = some r) :
    (sweepStep types solver interval st).path =
      appendAt (fun i => (jointUpdate (types.getD i VJoint.R) (r.getD i default)).1) 0 st.path ∧
    (sweepStep types solver interval st).vpos =
      moveAt (fun i => (jointUpdate (types.getD i VJoint.R) (r.getD i default)).2) 0 st.vpos := by
  simp only [sweepStep, hs]
  split <;> exact ⟨rfl, rfl⟩

/-- Unfolding of the two-direction trace: the backward sweep starts from the
forward sweep's final state with `angles` and `dp` reset but `path`, joint
positions and `angles_params` carried over. -/
theorem getPathState_eq [Inhabited α] (exprs : List ExprStep) (types : List VJoint)
    (solver : Solver α) (initPos : List (JPos α)) :
    getPathState exprs types solver initPos =
      sweepLoop types solver (-3) (iCountOf exprs) (sweepFuel (iCountOf exprs))
        { sweepLoop types solver 3 (iCountOf exprs) (sweepFuel (iCountOf exprs))
            (initState types initPos (iCountOf exprs)) with
          angles := List.replicate (iCountOf exprs) 0, dp := 0 } := rfl

/-! ## The claims -/

/-- C3: for every input, the returned `Path` is a list of length
`vpoint_count` (one sequence per joint), and every joint's sequence has the
same length, equal to the total number of position-solver calls made (success
or failure) across both sweep directions combined — so entry `k` of every
joint's sequence corresponds to the same solver call. -/
theorem c3_aligned [Inhabited α] (exprs : List ExprStep) (types : List VJoint)
    (solver : Solver α) (initPos : List (JPos α)) :
    (getPath exprs types solver initPos).length = types.length ∧
    ∀ l ∈ getPath exprs types solver initPos,
      l.length = (getPathState exprs types solver initPos).calls := by
  have h0 : ∀ l ∈ (initState types initPos (iCountOf exprs)).path,
      l.length = (initState types initPos (iCountOf exprs)).calls := by
    intro l hl
    rw [List.eq_of_mem_replicate hl]
    rfl
  have h1 := sweepLoop_path_forall_length types solver 3 (iCountOf exprs)
    (sweepFuel (iCountOf exprs)) (initState types initPos (iCountOf exprs)) h0
  constructor
  · show (getPathState exprs types solver initPos).path.length = types.length
    rw [getPathState_eq, sweepLoop_path_length]
    show (sweepLoop types solver 3 (iCountOf exprs) (sweepFuel (iCountOf exprs))
      (initState types initPos (iCountOf exprs))).path.length = types.length
    rw [sweepLoop_path_length]
    exact List.length_replicate _ _
  · show ∀ l ∈ (getPathState exprs types solver initPos).path,
      l.length = (getPathState exprs types solver initPos).calls
    rw [getPathState_eq]
    exact sweepLoop_path_forall_length types solver (-3) (iCountOf exprs)
      (sweepFuel (iCountOf exprs)) _ h1

/-- C4: whenever a position-solver call fails, exactly one not-a-number
sentinel pair is appended to every joint's path (never a stale previous
coordinate), the active driver's angle is backed off by one interval, the
driver pointer advances by one with no retry at the failing angle, and the
joint positions stay untouched; in particular, if the solver fails on the very
first call, every joint's path consists of exactly one sentinel entry before
the pointer advances to driver 1. -/
theorem c4_failure_sentinel [Inhabited α] (types : List VJoint) (solver : Solver α)
    (interval : ℤ) (st : TraceState α)
    (hfail : solver st.angles st.vpos = none) :
    (∀ j : ℕ, (sweepStep types solver interval st).path[j]? =
        (st.path[j]?).map (fun l => l ++ [PEntry.nanPair])) ∧
    (sweepStep types solver interval st).angles =
      st.angles.set st.dp (st.angles.getD st.dp 0 - interval) ∧
    (sweepStep types solver interval st).dp = st.dp + 1 ∧
    (sweepStep types solver interval st).vpos = st.vpos ∧
    ∀ (iCount : ℕ) (initPos : List (JPos α)),
      solver (List.replicate iCount 0) initPos = none →
        (sweepStep types solver interval (initState types initPos iCount)).path =
          List.replicate types.length [PEntry.nanPair] ∧
        (sweepStep types solver interval (initState types initPos iCount)).dp = 1 := by
  refine ⟨?_, ?_, ?_, ?_, ?_⟩
  · intro j
    simp [sweepStep, hfail]
  · simp [sweepStep, hfail]
  · simp [sweepStep, hfail]
  · simp [sweepStep, hfail]
  · intro iCount initPos hf0
    constructor
    · simp [sweepStep, initState, hf0, List.map_replicate]
    · simp [sweepStep, initState, hf0]

/-- Witness for C4: the always-failing solver on the one-driver initial state
appends exactly one sentinel to the only joint's path and moves the pointer to
driver 1. -/
theorem c4_witness :
    failSolverU stInit1.angles stInit1.vpos = none ∧
    (sweepStep typesR1 failSolverU 3 stInit1).path = [[PEntry.nanPair]] ∧
    (sweepStep typesR1 failSolverU 3 stInit1).dp = 1 := by
  have h := (c4_failure_sentinel typesR1 failSolverU 3 stInit1 rfl).2.2.2.2 1 posR1 rfl
  exact ⟨rfl, h.1, h.2⟩

/-- C6: while driver `dp` is active, a step (success or failure) never changes
the angle of any other driver; the pointer never moves backwards; over any run
of the loop the already-settled drivers (index below the starting pointer)
keep their angles, and if every driver beyond the pointer stands at angle 0
then that remains true of every driver beyond the pointer throughout. -/
theorem c6_only_active_driver [Inhabited α] (types : List VJoint) (solver : Solver α)
    (interval : ℤ) (iCount : ℕ) (st : TraceState α) :
    (∀ j, j ≠ st.dp →
      (sweepStep types solver interval st).angles[j]? = st.angles[j]?) ∧
    st.dp ≤ (sweepStep types solver interval st).dp ∧
    (∀ fuel j, j < st.dp →
      (sweepLoop types solver interval iCount fuel st).angles[j]? = st.angles[j]?) ∧
    ((∀ j, st.dp < j → st.angles.getD j 0 = 0) →
      ∀ fuel j, (sweepLoop types solver interval iCount fuel st).dp < j →
        (sweepLoop types solver interval iCount fuel st).angles.getD j 0 = 0) :=
  ⟨fun j hj => sweepStep_angles_ne types solver interval st j hj,
   sweepStep_dp_mono types solver interval st,
   fun fuel j hj => sweepLoop_angles_lt types solver interval iCount fuel st j hj,
   fun h fuel j hj => sweepLoop_zero_above types solver interval iCount fuel st h j hj⟩

/-- Witness for C6: in the two-driver all-success trace a step leaves driver
1's angle alone while driver 0 is active, and drivers beyond the pointer stay
at angle 0 through 150 loop iterations. -/
theorem c6_witness :
    (sweepStep typesR1 okSolverU 3 stInit2).angles[1]? = stInit2.angles[1]? ∧
    (sweepLoop typesR1 okSolverU 3 2 150 stInit2).angles.getD 5 0 = 0 := by
  have h := c6_only_active_driver typesR1 okSolverU 3 2 stInit2
  refine ⟨h.1 1 (by decide), ?_⟩
  refine h.2.2.2 ?_ 150 5 (by decide)
  intro j hj
  rcases j with _ | _ | j <;> rfl

/-- C8: on every successful solver call, a sliding joint (prismatic `P` or
revolute-slider `RP`) gets specifically the pin coordinate of its solved
`(slot, pin)` pair appended to its path, and its current-position state is
updated to that slot-plus-pin pair before the next solver call; a plain
revolute joint gets its plain solved coordinate appended and stored. -/
theorem c8_slider_pin [Inhabited α] (types : List VJoint) (solver : Solver α)
    (interval : ℤ) (st : TraceState α) (r : List (JPos α)) (j : ℕ)
    (hs : solver st.angles st.vpos = some r)
    (hj : j < types.length)
    (hpath : st.path.length = types.length)
    (hvpos : st.vpos.length = types.length) :
    ((types.getD j VJoint.R = VJoint.P ∨ types.getD j VJoint.R = VJoint.RP) →
      ∀ slot pin, r.getD j default = JPos.pinSlot slot pin →
        (sweepStep types solver interval st).path[j]? =
          some (st.path.getD j [] ++ [PEntry.coord pin]) ∧
        (sweepStep types solver interval st).vpos[j]? = some (JPos.pinSlot slot pin)) ∧
    (types.getD j VJoint.R = VJoint.R →
      ∀ c, r.getD j default = JPos.simple c →
        (sweepStep types solver interval st).path[j]? =
          some (st.path.getD j [] ++ [PEntry.coord c]) ∧
        (sweepStep types solver interval st).vpos[j]? = some (JPos.simple c)) := by
  obtain ⟨hp, hv⟩ := sweepStep_success_path_vpos types solver interval st r hs
  have hjp : j < st.path.length := by rw [hpath]; exact hj
  have hjv : j < st.vpos.length := by rw [hvpos]; exact hj
  have hpj : st.path[j]? = some (st.path.getD j []) := by
    rw [List.getElem?_eq_getElem hjp, List.getD_eq_getElem _ _ hjp]
  have hvj : st.vpos[j]? = some (st.vpos.getD j default) := by
    rw [List.getElem?_eq_getElem hjv, List.getD_eq_getElem _ _ hjv]
  constructor
  · rintro hty slot pin hr
    constructor
    · rw [hp, appendAt_getElem?, hpj]
      simp only [Option.map_some', Nat.zero_add, hr]
      rcases hty with hty | hty <;> rw [hty] <;> rfl
    · rw [hv, moveAt_getElem?, hvj]
      simp only [Option.map_some', Nat.zero_add, hr]
      rcases hty with hty | hty <;> rw [hty] <;> rfl
  · rintro hty c hr
    constructor
    · rw [hp, appendAt_getElem?, hpj]
      simp only [Option.map_some', Nat.zero_add, hr]
      rw [hty]
      rfl
    · rw [hv, moveAt_getElem?, hvj]
      simp only [Option.map_some', Nat.zero_add, hr]
      rw [hty]
      rfl

/-- Witness for C8: a revolute-slider joint whose solver reports slot `5` and
pin `7` gets the pin `7` appended to its path and its position updated to the
pair `(5, 7)`. -/
theorem c8_witness :
    (sweepStep typesRP1 slideSolver 3 stSlide).path[0]? = some [PEntry.coord 7] ∧
    (sweepStep typesRP1 slideSolver 3 stSlide).vpos[0]? = some (JPos.pinSlot 5 7) := by
  have h := (c8_slider_pin typesRP1 slideSolver 3 stSlide [JPos.pinSlot 5 7] 0
    rfl (by decide) rfl rfl).1 (Or.inr rfl) 5 7 rfl
  exact ⟨h.1, h.2⟩

/-- C9: the trace is deterministic — two runs on the same mechanism record
with position solvers of identical behaviour produce identical states and
identical `Path` output; all working state (paths, angles, progress, joint
positions) is built inside the call from its arguments, so nothing carries
over between invocations. -/
theorem c9_deterministic [Inhabited α] (exprs : List ExprStep) (types : List VJoint)
    (solver1 solver2 : Solver α) (initPos : List (JPos α))
    (h : ∀ a p, solver1 a p = solver2 a p) :
    getPathState exprs types solver1 initPos = getPathState exprs types solver2 initPos ∧
    getPath exprs types solver1 initPos = getPath exprs types solver2 initPos := by
  have hs : solver1 = solver2 := funext fun a => funext fun p => h a p
  subst hs
  exact ⟨rfl, rfl⟩

/-- Witness for C9: two syntactically different but pointwise-equal solvers
yield the same one-driver path. -/
theorem c9_witness :
    getPath (parseExpression exprStr1) typesR1 okSolverU posR1 =
      getPath (parseExpression exprStr1) typesR1 okSolverV posR1 :=
  (c9_deterministic (parseExpression exprStr1) typesR1 okSolverU okSolverV posR1
    (fun a p => by simp [okSolverU, okSolverV])).2

/-- C10: the number of independent drivers swept is the number of Expression
steps tagged `PLAP`, and both sweep directions use that count (both loops of
`getPathState` run up to `iCountOf exprs` by definition); consequently an
expression with no `PLAP` step yields a `Path` of `vpoint_count` empty
sequences with no solver call made, and the driver pointer never passes the
driver count. -/
theorem c10_no_plap [Inhabited α] (exprs : List ExprStep) (types : List VJoint)
    (solver : Solver α) (initPos : List (JPos α))
    (h : (exprs.filter (fun e => e.func == "PLAP")).length = 0) :
    getPath exprs types solver initPos = List.replicate types.length [] ∧
    (getPathState exprs types solver initPos).calls = 0 ∧
    (getPathState exprs types solver initPos).dp ≤ iCountOf exprs := by
  have hc : iCountOf exprs = 0 := h
  refine ⟨?_, ?_, ?_⟩
  · show (getPathState exprs types solver initPos).path = _
    rw [getPathState_eq, hc]
    rfl
  · rw [getPathState_eq, hc]
    rfl
  · rw [getPathState_eq, hc]
    exact Nat.le_refl _

/-- Witness for C10: the empty `Expression` string parses to no `PLAP` step,
so the trace over one joint returns one empty sequence after zero solver
calls. -/
theorem c10_witness :
    ((parseExpression "").filter (fun e => e.func == "PLAP")).length = 0 ∧
    getPath (parseExpression "") typesR1 okSolverU posR1 = [[]] ∧
    (getPathState (parseExpression "") typesR1 okSolverU posR1).calls = 0 := by
  have h := c10_no_plap (parseExpression "") typesR1 okSolverU posR1 (by decide)
  exact ⟨by decide, h.1, h.2.1⟩

/-- C7, counterexample: the drive angles are NOT always wrapped to
`[0, 360)`.  The failure back-off `angles[dp] -= interval` has no modulo, so a
solver failure on the very first forward call leaves driver 0 at `-3`; and the
overshoot rollback likewise has no modulo, so the backward sweep of the
two-driver all-success trace ends with both drivers at `360`. -/
theorem c7_counterexample :
    (sweepStep typesR1 failSolverU 3 stInit1).angles = [-3] ∧
    ¬ (0 ≤ (-3 : ℤ)) ∧
    (getPathState (parseExpression exprStr2) typesR1 okSolverU posR1).angles = [360, 360] ∧
    ¬ ((360 : ℤ) < 360) := by
  refine ⟨by decide, by decide, by decide, by decide⟩

/-- C7, amended: only the success-branch advance wraps, by `angles[dp] %= 360`
— after a successful call that does not trigger the overshoot rollback, the
active driver's angle lies in `[0, 360)`; the failure back-off and the
overshoot rollback subtract the interval without re-wrapping and can leave
the angle outside that range. -/
theorem c7_success_wrap [Inhabited α] (types : List VJoint) (solver : Solver α)
    (interval : ℤ) (st : TraceState α) (r : List (JPos α))
    (hint : interval = 3 ∨ interval = -3)
    (hs : solver st.angles st.vpos = some r)
    (hdp : st.dp < st.angles.length)
    (hdp2 : st.dp < st.anglesParams.length)
    (hp : st.anglesParams.getD st.dp 0 + 3 ≤ 360) :
    0 ≤ (sweepStep types solver interval st).angles.getD st.dp 0 ∧
    (sweepStep types solver interval st).angles.getD st.dp 0 < 360 := by
  have habs : |interval| = 3 := by rcases hint with rfl | rfl <;> decide
  simp only [sweepStep, hs]
  have hcond : ¬ ((st.anglesParams.set st.dp
      (st.anglesParams.getD st.dp 0 + |interval|)).getD st.dp 0 > 360) := by
    rw [getD_set_self _ _ _ hdp2, habs]
    omega
  rw [if_neg hcond]
  dsimp only
  rw [getD_set_self _ _ _ hdp]
  constructor
  · exact Int.emod_nonneg _ (by norm_num)
  · exact Int.emod_lt_of_pos _ (by norm_num)

/-- Witness for the amended C7: the first successful forward step of the
two-driver trace leaves driver 0's angle inside `[0, 360)`. -/
theorem c7_witness :
    0 ≤ (sweepStep typesR1 okSolverU 3 stInit2).angles.getD 0 0 ∧
    (sweepStep typesR1 okSolverU 3 stInit2).angles.getD 0 0 < 360 :=
  c7_success_wrap typesR1 okSolverU 3 stInit2 [JPos.simple ()]
    (Or.inl rfl) rfl (by decide) (by decide) (by decide)

/-- C5, counterexample: an empty `Expression` string does not fail the trace.
The code defines no `ConfigurationError`; the empty string parses to a single
step whose tag is not `PLAP`, so the driver count is 0, no solver call is
made, and the trace returns a `Path` of `vpoint_count` empty sequences
instead of raising. -/
theorem c5_counterexample :
    iCountOf (parseExpression "") = 0 ∧
    getPath (parseExpression "") typesR1 okSolverU posR1 = [[]] ∧
    (getPathState (parseExpression "") typesR1 okSolverU posR1).calls = 0 := by
  decide

/-- C5, amended: malformed input does not raise — an empty `Expression`
yields, for any joint list, solver and initial positions, a `Path` of
`vpoint_count` empty sequences with zero solver calls; and solver failures
indeed never escape: the `ValueError` of every call is caught and recorded as
one sentinel sample per joint, as in the one-driver always-failing trace whose
only joint's path is exactly two sentinel entries (one per sweep
direction). -/
theorem c5_no_config_error [Inhabited α] (types : List VJoint) (solver : Solver α)
    (initPos : List (JPos α)) :
    getPath (parseExpression "") types solver initPos = List.replicate types.length [] ∧
    (getPathState (parseExpression "") types solver initPos).calls = 0 ∧
    getPath (parseExpression exprStr1) typesR1 failSolverU posR1 =
      [[PEntry.nanPair, PEntry.nanPair]] := by
  refine ⟨rfl, rfl, by decide⟩

/-- C1, counterexample: in the two-driver all-success trace, driver 0's
forward settled phase contributes 121 samples per joint (not 120): after 121
loop iterations the pointer has advanced to driver 1 and the joint's path
already holds 121 entries; the backward sweep is not an independent
replay — from the backward start state one single iteration already advances
the pointer, so driver 0's backward phase contributes exactly 1 sample; and
the complete trace yields 244 samples per joint, not the 480 the claim's
`4 x 120` would give. -/
theorem c1_counterexample :
    (sweepLoop typesR1 okSolverU 3 2 121 stInit2).dp = 1 ∧
    ((sweepLoop typesR1 okSolverU 3 2 121 stInit2).path.headD []).length = 121 ∧
    ¬ ((sweepLoop typesR1 okSolverU 3 2 121 stInit2).path.headD []).length = 120 ∧
    (sweepLoop typesR1 okSolverU (-3) 2 1 stBwdInit2).dp = 1 ∧
    ((sweepLoop typesR1 okSolverU (-3) 2 1 stBwdInit2).path.headD []).length = 243 ∧
    ((getPath (parseExpression exprStr2) typesR1 okSolverU posR1).headD []).length = 244 ∧
    ¬ ((getPath (parseExpression exprStr2) typesR1 okSolverU posR1).headD []).length = 480 := by
  refine ⟨by decide, by decide, by decide, by decide, by decide, by decide, by decide⟩

/-- C1, amended: for the two-driver mechanism whose solver always succeeds,
each driver's forward settled phase produces exactly 121 samples per joint
(120 iterations do not yet advance the pointer, the 121st does); driver 1's
forward phase runs with driver 0 pinned at angle 0, its last accepted value
(360 wrapped); the backward sweep restarts from angle 0 but inherits the
cumulative progress array `[363, 363]`, so it is not independent of the
forward sweep and each driver's backward phase produces exactly 1 sample; the
full trace makes 244 solver calls and yields 244 samples per joint, with both
loops running the pointer to the driver count 2. -/
theorem c1_settled_phases :
    (sweepLoop typesR1 okSolverU 3 2 120 stInit2).dp = 0 ∧
    (sweepLoop typesR1 okSolverU 3 2 121 stInit2).dp = 1 ∧
    ((sweepLoop typesR1 okSolverU 3 2 121 stInit2).path.headD []).length = 121 ∧
    (sweepLoop typesR1 okSolverU 3 2 150 stInit2).dp = 1 ∧
    (sweepLoop typesR1 okSolverU 3 2 150 stInit2).angles[0]? = some 0 ∧
    stFwd2.dp = 2 ∧
    (stFwd2.path.headD []).length = 242 ∧
    stFwd2.angles = [0, 0] ∧
    stBwdInit2.angles = [0, 0] ∧
    stBwdInit2.anglesParams = [363, 363] ∧
    (sweepLoop typesR1 okSolverU (-3) 2 1 stBwdInit2).dp = 1 ∧
    ((sweepLoop typesR1 okSolverU (-3) 2 1 stBwdInit2).path.headD []).length = 243 ∧
    (getPathState (parseExpression exprStr2) typesR1 okSolverU posR1).dp = 2 ∧
    ((getPath (parseExpression exprStr2) typesR1 okSolverU posR1).headD []).length = 244 ∧
    (getPathState (parseExpression exprStr2) typesR1 okSolverU posR1).calls = 244 := by
  refine ⟨by decide, by decide, by decide, by decide, by decide, by decide, by decide,
    by decide, by decide, by decide, by decide, by decide, by decide, by decide, by decide⟩

/-- C2, counterexample: for the one-driver mechanism whose solver never
fails, 120 forward iterations leave the pointer at driver 0 with 120 samples
appended, and the pointer only advances on the 121st iteration — so the number
of accepted samples appended before the pointer advances is 121, not
`360 / |interval| = 120`. -/
theorem c2_counterexample :
    (sweepLoop typesR1 okSolverU 3 1 120 stInit1).dp = 0 ∧
    ((sweepLoop typesR1 okSolverU 3 1 120 stInit1).path.headD []).length = 120 ∧
    (sweepLoop typesR1 okSolverU 3 1 121 stInit1).dp = 1 ∧
    ((sweepLoop typesR1 okSolverU 3 1 121 stInit1).path.headD []).length = 121 ∧
    ¬ ((sweepLoop typesR1 okSolverU 3 1 121 stInit1).path.headD []).length = 360 / 3 := by
  refine ⟨by decide, by decide, by decide, by decide, by decide⟩


/-! ## Adequacy of the fuel bound

The `while dp < i_count` loop of the source has no fuel; the embedding's
`sweepFuel iCount = 121 * iCount` is shown to outlast it for the intervals
`±3` the source uses, so `getPathState` always leaves the loop with the
pointer at the driver count — the fuel never truncates the trace. -/

theorem getD_nonneg_of_forall (l : List ℤ) (n : ℕ) (h : ∀ p ∈ l, 0 ≤ p) :
    0 ≤ l.getD n 0 := by
  by_cases hn : n < l.length
  · rw [List.getD_eq_getElem _ _ hn]
    exact h _ (List.getElem_mem hn)
  · rw [List.getD_eq_default _ _ (Nat.le_of_not_lt hn)]

theorem sweepStep_params_length [Inhabited α] (types : List VJoint) (solver : Solver α)
    (interval : ℤ) (st : TraceState α) :
    (sweepStep types solver interval st).anglesParams.length = st.anglesParams.length := by
  cases h : solver st.angles st.vpos with
  | none => simp [sweepStep, h]
  | some r =>
    simp only [sweepStep, h]
    split <;> simp

theorem sweepStep_params_nonneg [Inhabited α] (types : List VJoint) (solver : Solver α)
    (interval : ℤ) (st : TraceState α) (hnn : ∀ p ∈ st.anglesParams, 0 ≤ p) :
    ∀ p ∈ (sweepStep types solver interval st).anglesParams, 0 ≤ p := by
  cases h : solver st.angles st.vpos with
  | none => simpa [sweepStep, h] using hnn
  | some r =>
    have hset : ∀ p ∈ st.anglesParams.set st.dp
        (st.anglesParams.getD st.dp 0 + |interval|), 0 ≤ p := by
      intro p hp
      rcases List.mem_or_eq_of_mem_set hp with hp | rfl
      · exact hnn _ hp
      · have h0 := getD_nonneg_of_forall st.anglesParams st.dp hnn
        have h1 : (0 : ℤ) ≤ |interval| := abs_nonneg _
        omega
    simp only [sweepStep, h]
    split <;> exact hset

theorem sweepLoop_params_length [Inhabited α] (types : List VJoint) (solver : Solver α)
    (interval : ℤ) (iCount fuel : ℕ) (st : TraceState α) :
    (sweepLoop types solver interval iCount fuel st).anglesParams.length =
      st.anglesParams.length := by
  induction fuel generalizing st with
  | zero => rfl
  | succ fuel ih =>
    simp only [sweepLoop]
    by_cases hdp : st.dp < iCount
    · rw [if_pos hdp, ih, sweepStep_params_length]
    · rw [if_neg hdp]

theorem sweepLoop_params_nonneg [Inhabited α] (types : List VJoint) (solver : Solver α)
    (interval : ℤ) (iCount fuel : ℕ) (st : TraceState α)
    (hnn : ∀ p ∈ st.anglesParams, 0 ≤ p) :
    ∀ p ∈ (sweepLoop types solver interval iCount fuel st).anglesParams, 0 ≤ p := by
  induction fuel generalizing st with
  | zero => exact hnn
  | succ fuel ih =>
    simp only [sweepLoop]
    by_cases hdp : st.dp < iCount
    · rw [if_pos hdp]
      exact ih _ (sweepStep_params_nonneg types solver interval st hnn)
    · rw [if_neg hdp]; exact hnn

/-- Case analysis of one iteration for the intervals the source uses: either
the step advances the pointer with the progress array untouched (solver
failure), or it adds `3` to the active driver's progress and then advances on
overshoot or stays with progress at most `360`. -/
theorem sweepStep_params_dp [Inhabited α] (types : List VJoint) (solver : Solver α)
    (interval : ℤ) (st : TraceState α) (hint : interval = 3 ∨ interval = -3) :
    ((sweepStep types solver interval st).anglesParams = st.anglesParams ∧
      (sweepStep types solver interval st).dp = st.dp + 1) ∨
    ((sweepStep types solver interval st).anglesParams =
        st.anglesParams.set st.dp (st.anglesParams.getD st.dp 0 + 3) ∧
      ((sweepStep types solver interval st).dp = st.dp + 1 ∨
        ((sweepStep types solver interval st).dp = st.dp ∧
          (st.anglesParams.set st.dp
            (st.anglesParams.getD st.dp 0 + 3)).getD st.dp 0 ≤ 360))) := by
  have habs : |interval| = 3 := by rcases hint with rfl | rfl <;> decide
  cases hs : solver st.angles st.vpos with
  | none =>
    left
    constructor <;> simp [sweepStep, hs]
  | some r =>
    right
    simp only [sweepStep, hs, habs]
    split
    · exact ⟨rfl, Or.inl rfl⟩
    · next hcond => exact ⟨rfl, Or.inr ⟨rfl, by omega⟩⟩

/-- Every iteration either advances the pointer or adds `3` to the active
driver's progress, which stops being possible past `360`; the decreasing
measure `(iCount - dp) * 121 - min (progress / 3) 120` bounds the iterations
left, so any fuel at least the measure runs the pointer to the driver
count. -/
theorem sweepLoop_fuel_adequate [Inhabited α] (types : List VJoint) (solver : Solver α)
    (interval : ℤ) (iCount : ℕ) (hint : interval = 3 ∨ interval = -3) :
    ∀ (fuel : ℕ) (st : TraceState α),
      iCount ≤ st.anglesParams.length →
      (∀ p ∈ st.anglesParams, 0 ≤ p) →
      (iCount - st.dp) * 121 -
          min ((st.anglesParams.getD st.dp 0).toNat / 3) 120 ≤ fuel →
      iCount ≤ (sweepLoop types solver interval iCount fuel st).dp := by
  intro fuel
  induction fuel with
  | zero =>
    intro st _ _ hfuel
    simp only [sweepLoop]
    by_contra hlt
    push_neg at hlt
    omega
  | succ fuel ih =>
    intro st hlen hnn hfuel
    simp only [sweepLoop]
    by_cases hdp : st.dp < iCount
    · rw [if_pos hdp]
      have hnn' := sweepStep_params_nonneg types solver interval st hnn
      have hlen' : iCount ≤ (sweepStep types solver interval st).anglesParams.length := by
        rw [sweepStep_params_length]; exact hlen
      refine ih _ hlen' hnn' ?_
      have hdpl : st.dp < st.anglesParams.length := Nat.lt_of_lt_of_le hdp hlen
      have h0 : 0 ≤ st.anglesParams.getD st.dp 0 := getD_nonneg_of_forall _ _ hnn
      rcases sweepStep_params_dp types solver interval st hint with
        ⟨hpar, hdp1⟩ | ⟨hpar, hcase⟩
      · rw [hpar, hdp1]
        omega
      · rcases hcase with hdp1 | ⟨hdp0, hle⟩
        · rw [hpar, hdp1]
          have hset : (st.anglesParams.set st.dp
              (st.anglesParams.getD st.dp 0 + 3)).getD (st.dp + 1) 0 =
              st.anglesParams.getD (st.dp + 1) 0 := by
            exact getD_set_ne _ _ _ _ (by omega)
          rw [hset]
          omega
        · rw [hpar, hdp0]
          rw [getD_set_self _ _ _ hdpl] at hle ⊢
          omega
    · rw [if_neg hdp]
      omega

theorem getD_replicate_zero (n k : ℕ) : (List.replicate n (0 : ℤ)).getD k 0 = 0 := by
  by_cases h : k < n
  · rw [List.getD_eq_getElem _ _ (by simpa using h)]
    simp
  · rw [List.getD_eq_default _ _ (by simpa using Nat.le_of_not_lt h)]

/-- The fueled embedding is exact: both directions of `getPathState` leave
their loop because the pointer reached the driver count, never because the
fuel ran out, for every solver and every input. -/
theorem getPathState_completes [Inhabited α] (exprs : List ExprStep) (types : List VJoint)
    (solver : Solver α) (initPos : List (JPos α)) :
    (getPathState exprs types solver initPos).dp = iCountOf exprs := by
  rw [getPathState_eq]
  have hnn0 : ∀ p ∈ (initState types initPos (iCountOf exprs)).anglesParams, 0 ≤ p := by
    intro p hp
    rw [List.eq_of_mem_replicate hp]
  have hnn1 : ∀ p ∈ (sweepLoop types solver 3 (iCountOf exprs) (sweepFuel (iCountOf exprs))
      (initState types initPos (iCountOf exprs))).anglesParams, 0 ≤ p :=
    sweepLoop_params_nonneg _ _ _ _ _ _ hnn0
  have hlen1 : iCountOf exprs ≤ (sweepLoop types solver 3 (iCountOf exprs)
      (sweepFuel (iCountOf exprs))
      (initState types initPos (iCountOf exprs))).anglesParams.length := by
    rw [sweepLoop_params_length]
    simp [initState]
  have h2 : iCountOf exprs ≤ (sweepLoop types solver (-3) (iCountOf exprs)
      (sweepFuel (iCountOf exprs))
      { sweepLoop types solver 3 (iCountOf exprs) (sweepFuel (iCountOf exprs))
          (initState types initPos (iCountOf exprs)) with
        angles := List.replicate (iCountOf exprs) 0, dp := 0 }).dp := by
    apply sweepLoop_fuel_adequate types solver (-3) (iCountOf exprs) (Or.inr rfl)
    · exact hlen1
    · exact hnn1
    · dsimp only
      simp only [sweepFuel]
      omega
  refine Nat.le_antisymm ?_ h2
  apply sweepLoop_dp_le
  exact Nat.zero_le _

/-! ## Exact phase counts

The exact number of iterations a driver's settled phase takes, for a solver
that succeeds on every call: 121 when its cumulative progress starts at 0
(the forward sweep), 1 when it starts beyond 357 (every driver of the
backward sweep, whose progress carries over from the forward one). -/

theorem sweepLoop_stall [Inhabited α] (types : List VJoint) (solver : Solver α)
    (interval : ℤ) (iCount fuel : ℕ) (st : TraceState α) (h : ¬ st.dp < iCount) :
    sweepLoop types solver interval iCount fuel st = st := by
  cases fuel with
  | zero => rfl
  | succ fuel => simp only [sweepLoop]; rw [if_neg h]

theorem sweepLoop_add [Inhabited α] (types : List VJoint) (solver : Solver α)
    (interval : ℤ) (iCount a b : ℕ) (st : TraceState α) :
    sweepLoop types solver interval iCount (a + b) st =
      sweepLoop types solver interval iCount b
        (sweepLoop types solver interval iCount a st) := by
  induction a generalizing st with
  | zero => rw [Nat.zero_add]; rfl
  | succ a ih =>
    by_cases h : st.dp < iCount
    · have h1 : a + 1 + b = (a + b) + 1 := by omega
      rw [h1]
      simp only [sweepLoop]
      rw [if_pos h, if_pos h, ih]
    · rw [sweepLoop_stall types solver interval iCount (a + 1 + b) st h,
        sweepLoop_stall types solver interval iCount (a + 1) st h,
        sweepLoop_stall types solver interval iCount b st h]

/-- On a successful call with the intervals the source uses, the progress of
the active driver grows by exactly `3` and the pointer advances exactly when
the grown progress exceeds `360`. -/
theorem sweepStep_success_facts [Inhabited α] (types : List VJoint) (solver : Solver α)
    (interval : ℤ) (st : TraceState α) (r : List (JPos α))
    (hint : interval = 3 ∨ interval = -3)
    (hs : solver st.angles st.vpos = some r) :
    (sweepStep types solver interval st).anglesParams =
      st.anglesParams.set st.dp (st.anglesParams.getD st.dp 0 + 3) ∧
    (sweepStep types solver interval st).calls = st.calls + 1 ∧
    (sweepStep types solver interval st).dp =
      (if (st.anglesParams.set st.dp
          (st.anglesParams.getD st.dp 0 + 3)).getD st.dp 0 > 360
        then st.dp + 1 else st.dp) := by
  have habs : |interval| = 3 := by rcases hint with rfl | rfl <;> decide
  simp only [sweepStep, hs, habs]
  split <;> exact ⟨rfl, rfl, rfl⟩

/-- With an always-successful solver and a phase starting at driver `d` with
progress `3 * j`, `f` more forward iterations (as long as `j + f ≤ 120`) keep
the pointer at `d`, raise the progress to `3 * (j + f)` and make `f` solver
calls. -/
theorem phase_progress [Inhabited α] (types : List VJoint) (solver : Solver α)
    (iCount : ℕ) (d : ℕ) (hd : d < iCount)
    (hsucc : ∀ a p, ∃ r, solver a p = some r) :
    ∀ (f j : ℕ), j + f ≤ 120 → ∀ st : TraceState α, st.dp = d →
      iCount ≤ st.anglesParams.length →
      st.anglesParams.getD d 0 = ((3 * j : ℕ) : ℤ) →
      (sweepLoop types solver 3 iCount f st).dp = d ∧
      (sweepLoop types solver 3 iCount f st).anglesParams.getD d 0 =
        ((3 * (j + f) : ℕ) : ℤ) ∧
      (sweepLoop types solver 3 iCount f st).calls = st.calls + f ∧
      iCount ≤ (sweepLoop types solver 3 iCount f st).anglesParams.length := by
  intro f
  induction f with
  | zero =>
    intro j _ st hdp hlen hpj
    refine ⟨hdp, ?_, rfl, hlen⟩
    show st.anglesParams.getD d 0 = ((3 * (j + 0) : ℕ) : ℤ)
    rw [hpj]
    norm_num
  | succ f ih =>
    intro j hj st hdp hlen hpj
    obtain ⟨r, hr⟩ := hsucc st.angles st.vpos
    obtain ⟨hpar, hcalls, hdpi⟩ :=
      sweepStep_success_facts types solver 3 st r (Or.inl rfl) hr
    have hdpl : st.dp < st.anglesParams.length := by omega
    have hgd : (st.anglesParams.set st.dp
        (st.anglesParams.getD st.dp 0 + 3)).getD st.dp 0 =
        st.anglesParams.getD st.dp 0 + 3 := getD_set_self _ _ _ hdpl
    have hno : ¬ ((st.anglesParams.set st.dp
        (st.anglesParams.getD st.dp 0 + 3)).getD st.dp 0 > 360) := by
      rw [hgd, hdp, hpj]
      have : 3 * j ≤ 357 := by omega
      omega
    have hdp2 : (sweepStep types solver 3 st).dp = d := by
      rw [hdpi, if_neg hno, hdp]
    have hlen2 : iCount ≤ (sweepStep types solver 3 st).anglesParams.length := by
      rw [sweepStep_params_length]; exact hlen
    have hpj2 : (sweepStep types solver 3 st).anglesParams.getD d 0 =
        ((3 * (j + 1) : ℕ) : ℤ) := by
      rw [hpar, ← hdp, hgd, hdp, hpj]
      push_cast
      ring
    have hguard : st.dp < iCount := by rw [hdp]; exact hd
    have hstep : sweepLoop types solver 3 iCount (f + 1) st =
        sweepLoop types solver 3 iCount f (sweepStep types solver 3 st) := by
      simp only [sweepLoop]
      rw [if_pos hguard]
    rw [hstep]
    obtain ⟨ha, hb, hc, hlen4⟩ := ih (j + 1) (by omega) (sweepStep types solver 3 st)
      hdp2 hlen2 hpj2
    refine ⟨ha, ?_, ?_, hlen4⟩
    · rw [hb]
      have : j + 1 + f = j + (f + 1) := by omega
      rw [this]
    · rw [hc, hcalls]
      omega

/-- C2, amended: for any driver whose phase starts with zero accumulated
progress and whose sweep encounters no solver failure, the number of accepted
samples appended per joint before the driver pointer advances is exactly 121
(`360 / |interval| + 1`), not 120: after 120 calls the pointer has not
advanced; the 121st call pushes the cumulative progress to 363 and the
rollback undoes only the angle step, the overshoot sample staying appended.
A driver whose phase starts with progress beyond 357 — every driver of the
backward sweep, since the progress array is not reset between directions —
appends exactly 1 sample before the pointer advances. -/
theorem c2_revolution_overshoot [Inhabited α] (types : List VJoint) (solver : Solver α)
    (iCount : ℕ) (st : TraceState α)
    (hsucc : ∀ a p, ∃ r, solver a p = some r)
    (hdp : st.dp < iCount)
    (hlen : iCount ≤ st.anglesParams.length)
    (hp0 : st.anglesParams.getD st.dp 0 = 0) :
    (sweepLoop types solver 3 iCount 120 st).dp = st.dp ∧
    (sweepLoop types solver 3 iCount 121 st).dp = st.dp + 1 ∧
    (sweepLoop types solver 3 iCount 121 st).calls = st.calls + 121 ∧
    (sweepLoop types solver 3 iCount 121 st).anglesParams.getD st.dp 0 = 363 ∧
    ((∀ l ∈ st.path, l.length = st.calls) →
      ∀ l ∈ (sweepLoop types solver 3 iCount 121 st).path, l.length = st.calls + 121) ∧
    ∀ st2 : TraceState α, st2.dp < iCount → st2.dp < st2.anglesParams.length →
      357 < st2.anglesParams.getD st2.dp 0 →
      (sweepLoop types solver (-3) iCount 1 st2).dp = st2.dp + 1 ∧
      (sweepLoop types solver (-3) iCount 1 st2).calls = st2.calls + 1 := by
  obtain ⟨hdp120, hpar120, hcalls120, hlen120⟩ :=
    phase_progress types solver iCount st.dp hdp hsucc 120 0 (by omega) st rfl hlen
      (by simpa using hp0)
  have hstep1 : ∀ (iv : ℤ), iv = 3 ∨ iv = -3 → ∀ st2 : TraceState α, st2.dp < iCount →
      st2.dp < st2.anglesParams.length → 357 < st2.anglesParams.getD st2.dp 0 →
      (sweepLoop types solver iv iCount 1 st2).dp = st2.dp + 1 ∧
      (sweepLoop types solver iv iCount 1 st2).calls = st2.calls + 1 ∧
      (sweepLoop types solver iv iCount 1 st2).anglesParams.getD st2.dp 0 =
        st2.anglesParams.getD st2.dp 0 + 3 := by
    intro iv hiv st2 h2dp h2len h2gt
    obtain ⟨r, hr⟩ := hsucc st2.angles st2.vpos
    obtain ⟨hpar2, hcalls2, hdpi2⟩ := sweepStep_success_facts types solver iv st2 r hiv hr
    have hgd2 : (st2.anglesParams.set st2.dp
        (st2.anglesParams.getD st2.dp 0 + 3)).getD st2.dp 0 =
        st2.anglesParams.getD st2.dp 0 + 3 := getD_set_self _ _ _ h2len
    have hyes : (st2.anglesParams.set st2.dp
        (st2.anglesParams.getD st2.dp 0 + 3)).getD st2.dp 0 > 360 := by
      rw [hgd2]; omega
    have hloop1 : sweepLoop types solver iv iCount 1 st2 = sweepStep types solver iv st2 := by
      simp only [sweepLoop]
      rw [if_pos h2dp]
    rw [hloop1]
    refine ⟨by rw [hdpi2, if_pos hyes], hcalls2, ?_⟩
    rw [hpar2, hgd2]
  have hsplit : sweepLoop types solver 3 iCount 121 st =
      sweepLoop types solver 3 iCount 1 (sweepLoop types solver 3 iCount 120 st) := by
    rw [show (121 : ℕ) = 120 + 1 from rfl, sweepLoop_add]
  have hmid_gt : 357 < (sweepLoop types solver 3 iCount 120 st).anglesParams.getD
      (sweepLoop types solver 3 iCount 120 st).dp 0 := by
    rw [hdp120, hpar120]
    norm_num
  have hmid_dp : (sweepLoop types solver 3 iCount 120 st).dp < iCount := by
    rw [hdp120]; exact hdp
  have hmid_len : (sweepLoop types solver 3 iCount 120 st).dp <
      (sweepLoop types solver 3 iCount 120 st).anglesParams.length := by
    rw [hdp120]; omega
  obtain ⟨hfin_dp, hfin_calls, hfin_par⟩ :=
    hstep1 3 (Or.inl rfl) (sweepLoop types solver 3 iCount 120 st) hmid_dp hmid_len hmid_gt
  rw [hsplit]
  refine ⟨hdp120, ?_, ?_, ?_, ?_, fun st2 h1 h2 h3 =>
    ⟨(hstep1 (-3) (Or.inr rfl) st2 h1 h2 h3).1, (hstep1 (-3) (Or.inr rfl) st2 h1 h2 h3).2.1⟩⟩
  · rw [hfin_dp, hdp120]
  · rw [hfin_calls, hcalls120]
  · rw [hdp120] at hfin_par
    rw [hfin_par, hpar120]
    norm_num
  · intro hpre
    have hall := sweepLoop_path_forall_length types solver 3 iCount 121 st hpre
    rw [hsplit] at hall
    intro l hl
    rw [hall l hl, hfin_calls, hcalls120]

/-- Witness for the amended C2: the one-driver all-success trace instantiates
the phase counts — no advance after 120 calls, advance after 121 with 121
calls made, and a backward phase of exactly one call from progress 363. -/
theorem c2_witness :
    (sweepLoop typesR1 okSolverU 3 1 120 stInit1).dp = 0 ∧
    (sweepLoop typesR1 okSolverU 3 1 121 stInit1).dp = 1 ∧
    (sweepLoop typesR1 okSolverU 3 1 121 stInit1).calls = 121 ∧
    (sweepLoop typesR1 okSolverU 3 1 121 stInit1).anglesParams.getD 0 0 = 363 := by
  have h := c2_revolution_overshoot typesR1 okSolverU 1 stInit1
    (fun a p => ⟨[JPos.simple ()], rfl⟩) (by decide) (by decide) (by decide)
  exact ⟨h.1, h.2.1, h.2.2.1, h.2.2.2.1⟩
